import Mathlib

/-!
Verification of the natural-language specification of flask-babel, a small
extension binding an i18n library to a web framework's request lifecycle.

The repository's library module is not present under src/ (only its test
suite src/tests/test_gettext.py and setup.py are), so the data model and the
operations below are modelled from the specification, with the repository's
own tests taken as the authority wherever they pin concrete behavior.
-/

set_option autoImplicit false

namespace FlaskBabel

/-- Locale identifiers are plain strings such as "de_DE" or "ja". -/
abbrev Locale := String

/-- Translation-domain names such as "messages" or "test". -/
abbrev DomainName := String

/-- Keyword substitutions passed to a translation call, as an association
list from placeholder name to replacement text. -/
abbrev Subst := List (String × String)

/-- Modelled from the spec: percent-style variable substitution, the
`message % variables` step of translation forwarding (section 4.3).  Scans
for a named placeholder key: given the characters after a literal "%(",
returns the key characters up to the closing ")s" and the remainder. -/
def scanKey : List Char → Option (List Char × List Char)
  | [] => none
  | ')' :: 's' :: rest => some ([], rest)
  | c :: rest =>
    match scanKey rest with
    | some (k, r) => some (c :: k, r)
    | none => none

/-- Modelled from the spec: one fuel-indexed pass of named-placeholder
substitution over the character list of a message.  Each occurrence of
"%(key)s" whose key is bound in vars is replaced by its value; everything
else is copied verbatim. -/
def substChars (vars : Subst) : Nat → List Char → List Char
  | 0, _ => []
  | _ + 1, [] => []
  | fuel + 1, '%' :: '(' :: rest =>
    match scanKey rest with
    | some (k, r) =>
      match vars.lookup (String.mk k) with
      | some v => v.data ++ substChars vars fuel r
      | none => '%' :: '(' :: substChars vars fuel rest
    | none => '%' :: '(' :: substChars vars fuel rest
  | fuel + 1, c :: rest => c :: substChars vars fuel rest

/-- Modelled from the spec: percent-formatting of a message with named
substitutions (the i18n library's `%` operator on a mapping). -/
def pctSubst (s : String) (vars : Subst) : String :=
  String.mk (substChars vars s.data.length s.data)

/-- Modelled from the spec: a parsed message catalog for one locale/domain
pair (glossary: "Catalog").  It carries singular translations, plural form
lists per singular message id, and the locale's plural rule mapping a count
to a form index (glossary: "Plural rule"). -/
structure Catalog where
  trans : List (String × String)
  pluralForms : List (String × List String)
  pluralRule : Nat → Nat

/-- Modelled from the spec: the null/empty translator produced when no
catalog file exists (section 4.2) — it has no entries, and its fallback
plural behavior is the hardcoded binary count-equals-one rule of the
wrapped i18n library's null translator. -/
def Catalog.null : Catalog :=
  { trans := [], pluralForms := [], pluralRule := fun n => if n = 1 then 0 else 1 }

/-- Modelled from the spec: singular catalog lookup — a missing entry falls
back to the source string unchanged (section 7). -/
def Catalog.ugettext (c : Catalog) (m : String) : String :=
  (c.trans.lookup m).getD m

/-- Modelled from the spec: plural catalog lookup — the form is selected by
evaluating the catalog's plural rule at the count (section 4.3); a missing
entry or missing form falls back to the source singular/plural strings
under the null translator's binary rule. -/
def Catalog.ungettext (c : Catalog) (s p : String) (n : Nat) : String :=
  match c.pluralForms.lookup s with
  | some forms =>
    match forms.get? (c.pluralRule n) with
    | some f => f
    | none => if n = 1 then s else p
  | none => if n = 1 then s else p

/-- Modelled from the spec: a Domain identifies a translation catalog
namespace — a domain name plus its list of search directories
(section 3, "Domain"). -/
structure Domain where
  name : DomainName
  dirs : List String

/-- Modelled from the spec: the on-disk compiled catalogs (section 6),
abstracted as a partial map from (search directory, locale, domain name)
to the catalog parsed from that directory, or none when no catalog file
exists there. -/
abbrev CatalogFiles := String → Locale → DomainName → Option Catalog

/-- Modelled from the spec: loading a catalog from the domain's search
directories — the first directory holding a catalog for the locale wins,
and when none does the null translator is returned (section 4.2, never
raises). -/
def loadCatalog (fs : CatalogFiles) (d : Domain) (loc : Locale) : Catalog :=
  match d.dirs.findSome? (fun dir => fs dir loc d.name) with
  | some c => c
  | none => Catalog.null

/-- Cache keys are (locale, domain name) pairs (section 3, "Translation
cache entry"). -/
abbrev CacheKey := Locale × DomainName

/-- Modelled from the spec: the catalog cache, a mapping keyed by
(locale, domain name) to loaded catalogs. -/
abbrev Cache := List (CacheKey × Catalog)

/-- Association lookup in the catalog cache. -/
def Cache.find : Cache → CacheKey → Option Catalog
  | [], _ => none
  | (k, c) :: rest, key => if k = key then some c else Cache.find rest key

/-- Result of a cache access: the catalog, the updated cache, and whether
the loader was invoked. -/
structure LoadResult where
  catalog : Catalog
  cache : Cache
  loaded : Bool

/-- Modelled from the spec: `get_or_load(locale, domain)` returns a cached
catalog if present, else loads it from the domain's search directories,
stores it under key (locale, domain name), and returns it (section 4.2). -/
def get_or_load (fs : CatalogFiles) (cache : Cache) (loc : Locale) (d : Domain) :
    LoadResult :=
  match Cache.find cache (loc, d.name) with
  | some c => { catalog := c, cache := cache, loaded := false }
  | none =>
    let c := loadCatalog fs d loc
    { catalog := c, cache := ((loc, d.name), c) :: cache, loaded := true }

/-- Modelled from the spec: `translate(message, **substitutions)` on a
domain — it fetches the domain's catalog through the cache, performs
variable substitution only if substitutions are non-empty, and otherwise
returns the resolved message verbatim (section 4.3).  The updated cache is
returned alongside the output. -/
def Domain.gettext (d : Domain) (fs : CatalogFiles) (cache : Cache) (loc : Locale)
    (m : String) (vars : Subst) : String × Cache :=
  let r := get_or_load fs cache loc d
  let s := r.catalog.ugettext m
  (if vars.isEmpty then s else pctSubst s vars, r.cache)

/-- Modelled from the spec: `translate_plural(singular, plural, count,
**substitutions)` on a domain — it additionally evaluates the catalog's
plural-selection rule for the count, and (as the repository's tests pin,
test_basics/test_lazy_ngettext) binds the count to the "num" substitution
key when the caller did not supply one, so substitution always runs. -/
def Domain.ngettext (d : Domain) (fs : CatalogFiles) (cache : Cache) (loc : Locale)
    (s p : String) (n : Nat) (vars : Subst) : String × Cache :=
  let vars := if (vars.lookup "num").isSome then vars else vars ++ [("num", toString n)]
  let r := get_or_load fs cache loc d
  (pctSubst (r.catalog.ungettext s p n) vars, r.cache)

/-- Modelled from the spec: the process/application environment a
translation call runs against — the catalog files, the locale resolved for
the current request (section 4.1), and the one active default domain
(section 3 invariant). -/
structure AppEnv where
  fs : CatalogFiles
  default_locale : Locale
  default_domain : Domain

/-- Modelled from the spec: `Domain.as_default()` — switches the
process-wide active default domain to this domain. -/
def Domain.as_default (d : Domain) (env : AppEnv) : AppEnv :=
  { env with default_domain := d }

/-- Modelled from the spec: the module-level translation call with no
explicit domain — it resolves against the active default domain and the
active locale. -/
def gettext (env : AppEnv) (cache : Cache) (m : String) (vars : Subst) :
    String × Cache :=
  env.default_domain.gettext env.fs cache env.default_locale m vars

/-- Modelled from the spec: the module-level plural translation call with
no explicit domain. -/
def ngettext (env : AppEnv) (cache : Cache) (s p : String) (n : Nat) (vars : Subst) :
    String × Cache :=
  env.default_domain.ngettext env.fs cache env.default_locale s p n vars

/-- Modelled from the spec: a lazy string defers translation until
string-coercion time — it stores only how to render itself against
whatever environment is active when it is finally coerced (section 3,
"Lazy string"). -/
structure LazyString where
  render : AppEnv → String

/-- Modelled from the spec: `lazy_gettext` builds a deferred translation
that re-evaluates `gettext` at each coercion. -/
def lazy_gettext (m : String) (vars : Subst) : LazyString :=
  { render := fun env => (gettext env [] m vars).1 }

/-- Modelled from the spec: `lazy_ngettext` builds a deferred plural
translation that re-evaluates `ngettext` at each coercion. -/
def lazy_ngettext (s p : String) (n : Nat) (vars : Subst) : LazyString :=
  { render := fun env => (ngettext env [] s p n vars).1 }

/-- String coercion of a lazy string under the currently active
environment. -/
def LazyString.str (l : LazyString) (env : AppEnv) : String :=
  l.render env

/-- Modelled from the spec: `list_translations` — the locales available to
an application are those discovered in the translation directories (in
scan order, first occurrence kept) together with the configured default
locale, which is appended only when not already discovered. -/
def list_translations (discovered : List Locale) (default : Locale) : List Locale :=
  let r := discovered.foldl (fun acc l => if l ∈ acc then acc else acc ++ [l]) []
  if default ∈ r then r else r ++ [default]

/-! ### Request/process execution model

The repository's tests (test_cache, test_multiple_apps) pin where the
catalog cache lives: `get_translations_cache` returns the cache of the
application's domain instance, and its contents survive from one request
context to the next within the same application, while a second
application's instance has its own, initially empty cache.  The run
functions below therefore thread one cache through a whole process run;
a request boundary does not reset it. -/

/-- One request's worth of plain translation calls for a fixed selected
locale and domain: threads the cache and counts loader invocations. -/
def runMsgs (fs : CatalogFiles) (d : Domain) (loc : Locale) :
    List String → Cache → Nat → Cache × Nat
  | [], cache, loads => (cache, loads)
  | _ :: ms, cache, loads =>
    let r := get_or_load fs cache loc d
    runMsgs fs d loc ms r.cache (loads + (if r.loaded then 1 else 0))

/-- A process run: a sequence of request contexts, each with its selected
locale and its translation calls.  The domain-instance cache is threaded
across request boundaries, as the repository's tests require. -/
def runRequests (fs : CatalogFiles) (d : Domain) :
    List (Locale × List String) → Cache → Cache
  | [], cache => cache
  | (loc, ms) :: reqs, cache => runRequests fs d reqs (runMsgs fs d loc ms cache 0).1

/-- The cache a translation call inside request number i (0-based)
observes at the start of that request: everything the earlier requests of
this application instance left behind, starting from the instance's
initially empty cache. -/
def observed_cache_at (fs : CatalogFiles) (d : Domain)
    (reqs : List (Locale × List String)) (i : Nat) : Cache :=
  runRequests fs d (reqs.take i) []

/-! ### Concrete catalogs mirroring the repository's test fixtures -/

/-- The de_DE "messages" catalog of the test fixtures: Germanic plural
rule nplurals=2; plural=(n != 1). -/
def deCatalog : Catalog :=
  { trans := [("Hello %(name)s!", "Hallo %(name)s!"), ("Yes", "Ja")]
  , pluralForms := [("%(num)s Apple", ["%(num)s Apfel", "%(num)s Äpfel"])]
  , pluralRule := fun n => if n = 1 then 0 else 1 }

/-- The ja "messages" catalog of the test fixtures: single plural form,
nplurals=1; plural=0. -/
def jaCatalog : Catalog :=
  { trans := []
  , pluralForms := [("%(num)s Apple", ["リンゴ %(num)s 個"])]
  , pluralRule := fun _ => 0 }

/-- The de_DE catalog of the alternate "test" domain of the test fixtures. -/
def testDeCatalog : Catalog :=
  { trans := [("first", "erste")]
  , pluralForms := []
  , pluralRule := fun n => if n = 1 then 0 else 1 }

/-- The on-disk catalogs of the test fixtures: a single "translations"
directory holding de_DE and ja catalogs for the "messages" domain and a
de_DE catalog for the "test" domain; nothing for en_US. -/
def exFS : CatalogFiles := fun dir loc dom =>
  if dir = "translations" then
    if dom = "messages" then
      if loc = "de_DE" then some deCatalog
      else if loc = "ja" then some jaCatalog
      else none
    else if dom = "test" then
      if loc = "de_DE" then some testDeCatalog
      else none
    else none
  else none

/-- The default "messages" domain of the test applications. -/
def messagesDomain : Domain :=
  { name := "messages", dirs := ["translations"] }

/-- The explicitly constructed "test" domain of the test applications. -/
def testDomain : Domain :=
  { name := "test", dirs := ["translations"] }

/-- A test application environment with the given active locale and the
default "messages" domain. -/
def exEnv (loc : Locale) : AppEnv :=
  { fs := exFS, default_locale := loc, default_domain := messagesDomain }

/-! ### Helper lemmas -/

theorem get_or_load_of_find_some (fs : CatalogFiles) {cache : Cache} {loc : Locale}
    {d : Domain} {c : Catalog} (h : Cache.find cache (loc, d.name) = some c) :
    get_or_load fs cache loc d = { catalog := c, cache := cache, loaded := false } := by
  unfold get_or_load
  rw [h]

theorem get_or_load_of_find_none (fs : CatalogFiles) {cache : Cache} {loc : Locale}
    {d : Domain} (h : Cache.find cache (loc, d.name) = none) :
    get_or_load fs cache loc d =
      { catalog := loadCatalog fs d loc
      , cache := ((loc, d.name), loadCatalog fs d loc) :: cache
      , loaded := true } := by
  unfold get_or_load
  rw [h]

theorem find_get_or_load_self (fs : CatalogFiles) (cache : Cache) (loc : Locale)
    (d : Domain) :
    Cache.find (get_or_load fs cache loc d).cache (loc, d.name) =
      some (get_or_load fs cache loc d).catalog := by
  cases h : Cache.find cache (loc, d.name) with
  | some c => rw [get_or_load_of_find_some fs h]; exact h
  | none => rw [get_or_load_of_find_none fs h]; simp [Cache.find]

theorem find_get_or_load_preserve (fs : CatalogFiles) {cache : Cache} (loc : Locale)
    (d : Domain) {k : CacheKey} {v : Catalog} (h : Cache.find cache k = some v) :
    Cache.find (get_or_load fs cache loc d).cache k = some v := by
  cases hf : Cache.find cache (loc, d.name) with
  | some c => rw [get_or_load_of_find_some fs hf]; exact h
  | none =>
    rw [get_or_load_of_find_none fs hf]
    by_cases hk : (loc, d.name) = k
    · rw [hk] at hf; rw [hf] at h; cases h
    · simpa [Cache.find, hk] using h

theorem find_get_or_load_other (fs : CatalogFiles) (cache : Cache) (loc : Locale)
    (d : Domain) {k : CacheKey} (hk : k ≠ (loc, d.name)) :
    Cache.find (get_or_load fs cache loc d).cache k = Cache.find cache k := by
  cases hf : Cache.find cache (loc, d.name) with
  | some c => rw [get_or_load_of_find_some fs hf]
  | none =>
    rw [get_or_load_of_find_none fs hf]
    have hne : ¬((loc, d.name) = k) := fun h => hk h.symm
    rw [Cache.find, if_neg hne]

theorem find_runMsgs_preserve (fs : CatalogFiles) (d : Domain) (loc : Locale)
    (ms : List String) {cache : Cache} {k : CacheKey} {v : Catalog} (loads : Nat)
    (h : Cache.find cache k = some v) :
    Cache.find (runMsgs fs d loc ms cache loads).1 k = some v := by
  induction ms generalizing cache loads with
  | nil => exact h
  | cons m ms ih => exact ih _ (find_get_or_load_preserve fs loc d h)

theorem find_runRequests_preserve (fs : CatalogFiles) (d : Domain)
    (reqs : List (Locale × List String)) {cache : Cache} {k : CacheKey} {v : Catalog}
    (h : Cache.find cache k = some v) :
    Cache.find (runRequests fs d reqs cache) k = some v := by
  induction reqs generalizing cache with
  | nil => exact h
  | cons r reqs ih => exact ih (find_runMsgs_preserve fs d r.1 r.2 0 h)

theorem runMsgs_loads_le (fs : CatalogFiles) (d : Domain) (loc : Locale)
    (ms : List String) (cache : Cache) (loads : Nat) :
    (runMsgs fs d loc ms cache loads).2 ≤
      loads + (if (Cache.find cache (loc, d.name)).isSome then 0 else 1) := by
  induction ms generalizing cache loads with
  | nil => simp [runMsgs]
  | cons m ms ih =>
    cases hf : Cache.find cache (loc, d.name) with
    | some c =>
      have step : runMsgs fs d loc (m :: ms) cache loads = runMsgs fs d loc ms cache loads := by
        simp [runMsgs, get_or_load_of_find_some fs hf]
      rw [step]
      have h2 := ih cache loads
      rw [hf] at h2
      simpa using h2
    | none =>
      have step : runMsgs fs d loc (m :: ms) cache loads =
          runMsgs fs d loc ms (((loc, d.name), loadCatalog fs d loc) :: cache) (loads + 1) := by
        simp [runMsgs, get_or_load_of_find_none fs hf]
      have h2 := ih (((loc, d.name), loadCatalog fs d loc) :: cache) (loads + 1)
      have hfind : Cache.find (((loc, d.name), loadCatalog fs d loc) :: cache) (loc, d.name) =
          some (loadCatalog fs d loc) := by simp [Cache.find]
      rw [hfind] at h2
      rw [step]
      simpa using h2

theorem find_eq_none_iff_not_mem_keys (cache : Cache) (k : CacheKey) :
    Cache.find cache k = none ↔ k ∉ cache.map Prod.fst := by
  induction cache with
  | nil => simp [Cache.find]
  | cons e rest ih =>
    obtain ⟨ek, ec⟩ := e
    rw [Cache.find]
    simp only [List.map_cons, List.mem_cons, not_or]
    by_cases hk : ek = k
    · rw [if_pos hk]
      constructor
      · intro h; cases h
      · intro h; exact absurd hk.symm h.1
    · rw [if_neg hk, ih]
      constructor
      · intro h; exact ⟨fun he => hk he.symm, h⟩
      · intro h; exact h.2

theorem keys_nodup_get_or_load (fs : CatalogFiles) (cache : Cache) (loc : Locale)
    (d : Domain) (h : (cache.map Prod.fst).Nodup) :
    ((get_or_load fs cache loc d).cache.map Prod.fst).Nodup := by
  cases hf : Cache.find cache (loc, d.name) with
  | some c => rw [get_or_load_of_find_some fs hf]; exact h
  | none =>
    rw [get_or_load_of_find_none fs hf]
    simp only [List.map_cons, List.nodup_cons]
    exact ⟨(find_eq_none_iff_not_mem_keys cache (loc, d.name)).1 hf, h⟩

/-! ### Claim theorems -/

/-- C1: for every locale and domain, get_or_load returns the cached catalog
when one is present for the current cache scope, and otherwise loads the
catalog from the domain's search directories, stores it under key
(locale, domain name), and returns it; consequently, across repeated
translation calls for the same (locale, domain) pair, the catalog loader
is invoked at most once per cache scope. -/
theorem get_or_load_spec (fs : CatalogFiles) (cache : Cache) (loc : Locale)
    (d : Domain) (ms : List String) :
    (∀ c, Cache.find cache (loc, d.name) = some c →
      get_or_load fs cache loc d = { catalog := c, cache := cache, loaded := false }) ∧
    (Cache.find cache (loc, d.name) = none →
      get_or_load fs cache loc d =
        { catalog := loadCatalog fs d loc
        , cache := ((loc, d.name), loadCatalog fs d loc) :: cache
        , loaded := true }) ∧
    (runMsgs fs d loc ms cache 0).2 ≤ 1 := by
  refine ⟨fun c h => get_or_load_of_find_some fs h, fun h => get_or_load_of_find_none fs h, ?_⟩
  have h := runMsgs_loads_le fs d loc ms cache 0
  cases hf : Cache.find cache (loc, d.name) with
  | some c => rw [hf] at h; simpa using h.trans (by simp)
  | none => rw [hf] at h; simpa using h

/-- Witness for C1 at the inputs of the repository's test_cache: the empty
cache misses on ("en_US", "messages"), so get_or_load loads and stores the
(here: null) catalog, and two repeated calls invoke the loader once. -/
theorem get_or_load_spec_witness :
    Cache.find ([] : Cache) ("en_US", messagesDomain.name) = none ∧
    get_or_load exFS [] "en_US" messagesDomain =
      { catalog := loadCatalog exFS messagesDomain "en_US"
      , cache := [(("en_US", "messages"), loadCatalog exFS messagesDomain "en_US")]
      , loaded := true } ∧
    (runMsgs exFS messagesDomain "en_US" ["Yes", "Yes"] [] 0).2 ≤ 1 := by
  have h := get_or_load_spec exFS [] "en_US" messagesDomain ["Yes", "Yes"]
  exact ⟨rfl, h.2.1 rfl, h.2.2⟩

/-- The two-request process run of the repository's test_cache, restricted
to its first two requests: both requests select locale en_US and translate
"Yes" once. -/
def twoRequests : List (Locale × List String) :=
  [("en_US", ["Yes"]), ("en_US", ["Yes"])]

/-- C2 is false on the code: the repository's test_cache (lines 184-191)
asserts that the second request context of the same application observes a
translations cache already containing the ("en_US", "messages") entry
created during the first request, so the cache of the claim is not
request-scoped.  Concretely, the cache observed at the start of request 1
(0-based) of the test_cache run holds the entry created in request 0. -/
theorem cache_entry_survives_request :
    Cache.find (observed_cache_at exFS messagesDomain twoRequests 1)
      ("en_US", "messages") ≠ none := by
  have h : Cache.find (observed_cache_at exFS messagesDomain twoRequests 1)
      ("en_US", "messages") = some Catalog.null := rfl
  rw [h]
  exact fun hx => Option.noConfusion hx

/-- C2 (amended): a translation cache entry's lifetime is the domain
instance (the application) in which it was created, not the request
context: a request boundary does not reset the cache, entries persist into
every later request of the same application, a fresh application instance
starts from its own empty cache, and in the test_cache run the second
request observes the entry created by the first and performs no further
load for it. -/
theorem cache_scope_is_domain_instance (fs : CatalogFiles) (d : Domain)
    (reqs : List (Locale × List String)) (loc : Locale) (ms : List String)
    (cache : Cache) (k : CacheKey) (v : Catalog) :
    (runRequests fs d ((loc, ms) :: reqs) cache =
      runRequests fs d reqs (runMsgs fs d loc ms cache 0).1) ∧
    (Cache.find cache k = some v →
      Cache.find (runRequests fs d reqs cache) k = some v) ∧
    (observed_cache_at fs d reqs 0 = []) ∧
    (Cache.find (observed_cache_at exFS messagesDomain twoRequests 1)
        ("en_US", "messages") = some Catalog.null ∧
      (runMsgs exFS messagesDomain "en_US" ["Yes"]
        (observed_cache_at exFS messagesDomain twoRequests 1) 0).2 = 0) := by
  refine ⟨rfl, fun h => find_runRequests_preserve fs d reqs h, rfl, rfl, rfl⟩

/-- Witness for C2 (amended): persistence instantiated on the test_cache
run — the entry stored during request 0 is still found after the remaining
request runs. -/
theorem cache_scope_is_domain_instance_witness :
    Cache.find (observed_cache_at exFS messagesDomain twoRequests 1)
        ("en_US", "messages") = some Catalog.null ∧
    Cache.find
        (runRequests exFS messagesDomain [("en_US", ["Yes"])]
          (observed_cache_at exFS messagesDomain twoRequests 1))
        ("en_US", "messages") = some Catalog.null := by
  have h := cache_scope_is_domain_instance exFS messagesDomain [("en_US", ["Yes"])]
    "en_US" ["Yes"] (observed_cache_at exFS messagesDomain twoRequests 1)
    ("en_US", "messages") Catalog.null
  exact ⟨rfl, h.2.1 rfl⟩

/-- C3: translate (gettext) with no keyword substitutions returns the
resolved message verbatim with no percent-formatting applied, even when it
contains percent-placeholders such as "%s" or "%(name)s" (and when the
catalog has no entry, the output is the input message itself); substitution
is performed only when the supplied substitutions are non-empty. -/
theorem gettext_no_formatting (fs : CatalogFiles) (cache : Cache) (loc : Locale)
    (d : Domain) (m : String) (vars : Subst) :
    ((d.gettext fs cache loc m []).1 = (get_or_load fs cache loc d).catalog.ugettext m) ∧
    ((get_or_load fs cache loc d).catalog.trans.lookup m = none →
      (d.gettext fs cache loc m []).1 = m) ∧
    (vars ≠ [] → (d.gettext fs cache loc m vars).1 =
      pctSubst ((get_or_load fs cache loc d).catalog.ugettext m) vars) ∧
    ((messagesDomain.gettext exFS [] "en_US" "Test %s" []).1 = "Test %s") ∧
    ((messagesDomain.gettext exFS [] "en_US" "Test %(name)s" [("name", "test")]).1 =
      "Test test") := by
  refine ⟨by simp [Domain.gettext], ?_, ?_, rfl, rfl⟩
  · intro h
    simp [Domain.gettext, Catalog.ugettext, h]
  · intro h
    cases vars with
    | nil => exact absurd rfl h
    | cons a l => simp [Domain.gettext]

/-- Witness for C3: under the test fixtures at locale en_US (no catalog on
disk) a lookup miss returns the message verbatim, and a non-empty
substitution list triggers formatting. -/
theorem gettext_no_formatting_witness :
    ((get_or_load exFS [] "en_US" messagesDomain).catalog.trans.lookup "Test %s" = none ∧
      (messagesDomain.gettext exFS [] "en_US" "Test %s" []).1 = "Test %s") ∧
    (([("name", "test")] : Subst) ≠ [] ∧
      (messagesDomain.gettext exFS [] "en_US" "Test %(name)s" [("name", "test")]).1 =
        pctSubst ((get_or_load exFS [] "en_US" messagesDomain).catalog.ugettext
          "Test %(name)s") [("name", "test")]) := by
  have h := gettext_no_formatting exFS [] "en_US" messagesDomain "Test %(name)s"
    [("name", "test")]
  have h2 := gettext_no_formatting exFS [] "en_US" messagesDomain "Test %s"
    ([] : Subst)
  exact ⟨⟨rfl, h2.2.1 rfl⟩, ⟨by simp, h.2.2.1 (by simp)⟩⟩

/-- Loading from search directories that hold no catalog for the locale
yields the null translator. -/
theorem loadCatalog_eq_null (fs : CatalogFiles) (d : Domain) (loc : Locale)
    (h : ∀ dir ∈ d.dirs, fs dir loc d.name = none) :
    loadCatalog fs d loc = Catalog.null := by
  unfold loadCatalog
  rw [List.findSome?_eq_none_iff.mpr h]

/-- C4: for every (locale, domain) pair with no catalog file in the
domain's search directories, loading yields the null/empty translator
rather than raising (all operations are total functions), and every
subsequent translation call returns the source string unchanged modulo
substitution: gettext returns the message itself (formatted only when
substitutions are supplied), and ngettext falls back to the source
singular/plural strings. -/
theorem missing_catalog_fallback (fs : CatalogFiles) (cache : Cache) (loc : Locale)
    (d : Domain) (m s p : String) (n : Nat) (vars : Subst)
    (hdirs : ∀ dir ∈ d.dirs, fs dir loc d.name = none)
    (hcache : Cache.find cache (loc, d.name) = none) :
    loadCatalog fs d loc = Catalog.null ∧
    (d.gettext fs cache loc m []).1 = m ∧
    (vars ≠ [] → (d.gettext fs cache loc m vars).1 = pctSubst m vars) ∧
    (d.ngettext fs cache loc s p n []).1 =
      pctSubst (if n = 1 then s else p) [("num", toString n)] := by
  have hnull := loadCatalog_eq_null fs d loc hdirs
  have hcat : (get_or_load fs cache loc d).catalog = Catalog.null := by
    rw [get_or_load_of_find_none fs hcache, hnull]
  refine ⟨hnull, ?_, ?_, ?_⟩
  · simp [Domain.gettext, hcat, Catalog.ugettext, Catalog.null]
  · intro h
    cases vars with
    | nil => exact absurd rfl h
    | cons a l => simp [Domain.gettext, hcat, Catalog.ugettext, Catalog.null]
  · simp [Domain.ngettext, hcat, Catalog.ungettext, Catalog.null]

/-- Witness for C4 at the test fixtures: locale en_US has no catalog file,
so translation falls back to the source strings. -/
theorem missing_catalog_fallback_witness :
    (∀ dir ∈ messagesDomain.dirs, exFS dir "en_US" messagesDomain.name = none) ∧
    Cache.find ([] : Cache) ("en_US", messagesDomain.name) = none ∧
    loadCatalog exFS messagesDomain "en_US" = Catalog.null ∧
    (messagesDomain.gettext exFS [] "en_US" "Yes" []).1 = "Yes" ∧
    (messagesDomain.ngettext exFS [] "en_US" "%(num)s Apple" "%(num)s Apples" 2 []).1 =
      pctSubst (if 2 = 1 then "%(num)s Apple" else "%(num)s Apples")
        [("num", toString 2)] := by
  have hdirs : ∀ dir ∈ messagesDomain.dirs, exFS dir "en_US" messagesDomain.name = none := by
    intro dir hdir
    simp only [messagesDomain, List.mem_singleton] at hdir
    subst hdir
    rfl
  have h := missing_catalog_fallback exFS [] "en_US" messagesDomain "Yes"
    "%(num)s Apple" "%(num)s Apples" 2 [] hdirs rfl
  exact ⟨hdirs, rfl, h.1, h.2.1, h.2.2.2⟩

/-- C5: translate_plural (ngettext) selects the plural form by evaluating
the active catalog's plural rule at the count, not a hardcoded binary
count-equals-one rule: whenever a catalog's rule sends two counts to the
same form index, the same form is selected for both; under the de_DE
fixture (nplurals=2; plural=(n != 1)) the forms for counts 1 and 2 differ,
while under the ja fixture (nplurals=1; plural=0) counts 1 and 2 select
the same form. -/
theorem plural_rule_from_catalog :
    (∀ (c : Catalog) (s p : String) (n k : Nat) (forms : List String) (f : String),
      c.pluralForms.lookup s = some forms →
      c.pluralRule n = c.pluralRule k →
      forms.get? (c.pluralRule n) = some f →
      c.ungettext s p n = c.ungettext s p k) ∧
    (deCatalog.ungettext "%(num)s Apple" "%(num)s Apples" 1 = "%(num)s Apfel") ∧
    (deCatalog.ungettext "%(num)s Apple" "%(num)s Apples" 2 = "%(num)s Äpfel") ∧
    (deCatalog.ungettext "%(num)s Apple" "%(num)s Apples" 1 ≠
      deCatalog.ungettext "%(num)s Apple" "%(num)s Apples" 2) ∧
    (jaCatalog.ungettext "%(num)s Apple" "%(num)s Apples" 1 =
      jaCatalog.ungettext "%(num)s Apple" "%(num)s Apples" 2) ∧
    ((messagesDomain.ngettext exFS [] "de_DE" "%(num)s Apple" "%(num)s Apples" 1 []).1 =
      "1 Apfel") ∧
    ((messagesDomain.ngettext exFS [] "de_DE" "%(num)s Apple" "%(num)s Apples" 2 []).1 =
      "2 Äpfel") ∧
    ((messagesDomain.ngettext exFS [] "ja" "%(num)s Apple" "%(num)s Apples" 1 []).1 =
      "リンゴ 1 個") ∧
    ((messagesDomain.ngettext exFS [] "ja" "%(num)s Apple" "%(num)s Apples" 2 []).1 =
      "リンゴ 2 個") := by
  refine ⟨?_, rfl, rfl, by decide, rfl, rfl, rfl, rfl, rfl⟩
  intro c s p n k forms f hl hr hg
  simp only [Catalog.ungettext, hl, ← hr, hg]

/-- Witness for C5: the general rule-driven clause instantiated on the
de_DE fixture catalog at counts 2 and 5, which its plural rule sends to
the same form index. -/
theorem plural_rule_from_catalog_witness :
    deCatalog.pluralForms.lookup "%(num)s Apple" =
      some ["%(num)s Apfel", "%(num)s Äpfel"] ∧
    deCatalog.pluralRule 2 = deCatalog.pluralRule 5 ∧
    ["%(num)s Apfel", "%(num)s Äpfel"].get? (deCatalog.pluralRule 2) =
      some "%(num)s Äpfel" ∧
    deCatalog.ungettext "%(num)s Apple" "%(num)s Apples" 2 =
      deCatalog.ungettext "%(num)s Apple" "%(num)s Apples" 5 := by
  refine ⟨rfl, rfl, rfl, ?_⟩
  exact plural_rule_from_catalog.1 deCatalog "%(num)s Apple" "%(num)s Apples" 2 5
    ["%(num)s Apfel", "%(num)s Äpfel"] "%(num)s Äpfel" rfl rfl rfl

/-- C6: lazy strings built by lazy_gettext / lazy_ngettext re-evaluate
translation at each string coercion rather than at construction time: the
coercion of a lazy string equals the eager translation under the
environment active at coercion, and coercing the same lazy string under
two environments with different active locales yields each locale's own
translation (mirroring test_lazy_gettext and
test_lazy_gettext_defaultdomain). -/
theorem lazy_reevaluates_at_coercion (m s p : String) (n : Nat) (vars : Subst)
    (env : AppEnv) :
    ((lazy_gettext m vars).str env = (gettext env [] m vars).1) ∧
    ((lazy_ngettext s p n vars).str env = (ngettext env [] s p n vars).1) ∧
    ((lazy_gettext "Yes" []).str (exEnv "de_DE") = "Ja") ∧
    ((lazy_gettext "Yes" []).str (exEnv "en_US") = "Yes") ∧
    ((lazy_gettext "first" []).str
      { fs := exFS, default_locale := "de_DE", default_domain := testDomain } = "erste") ∧
    ((lazy_gettext "first" []).str
      { fs := exFS, default_locale := "en_US", default_domain := testDomain } = "first") ∧
    ((lazy_ngettext "%(num)s Apple" "%(num)s Apples" 2 []).str (exEnv "de_DE") =
      "2 Äpfel") :=
  ⟨rfl, rfl, rfl, rfl, rfl, rfl, rfl⟩

/-- C7: exactly one domain is the active default per process (the
environment determines it uniquely), a translation call without an
explicit domain resolves against that active default, and after
as_default is called on another domain every subsequent no-domain call
resolves against the newly activated domain (mirroring test_as_default:
"first" misses in the "messages" domain but hits "erste" once the "test"
domain is made default). -/
theorem active_default_domain (env : AppEnv) (d d1 d2 : Domain)
    (cache : Cache) (m : String) (vars : Subst) :
    (env.default_domain = d1 → env.default_domain = d2 → d1 = d2) ∧
    (gettext env cache m vars =
      env.default_domain.gettext env.fs cache env.default_locale m vars) ∧
    ((d.as_default env).default_domain = d) ∧
    (gettext (d.as_default env) cache m vars =
      d.gettext env.fs cache env.default_locale m vars) ∧
    ((gettext (exEnv "de_DE") [] "first" []).1 = "first") ∧
    ((gettext (testDomain.as_default (exEnv "de_DE")) [] "first" []).1 = "erste") :=
  ⟨fun h1 h2 => h1.symm.trans h2, rfl, rfl, rfl, rfl, rfl⟩

/-- Witness for C7: uniqueness of the active default instantiated on the
de_DE test environment, whose active default is the "messages" domain. -/
theorem active_default_domain_witness :
    (exEnv "de_DE").default_domain = messagesDomain ∧
    messagesDomain = messagesDomain := by
  refine ⟨rfl, ?_⟩
  exact (active_default_domain (exEnv "de_DE") testDomain messagesDomain messagesDomain
    [] "first" []).1 rfl rfl

/-- C8: catalog cache keys are unique per (locale, domain name) and
lookups never mix catalogs across domains: an access for one domain leaves
every other key's entry untouched, the catalog it returns comes from that
domain's own entry or its own search directories, key uniqueness is
preserved, and within a single request (one threaded cache) the same
message translated through the explicit "test" domain and through the
default "messages" domain consults each domain's own catalog, returning
"erste" and "first" respectively (mirroring test_domain). -/
theorem cache_keys_isolate_domains (fs : CatalogFiles) (cache : Cache)
    (loc : Locale) (d : Domain) (k : CacheKey) :
    (k ≠ (loc, d.name) →
      Cache.find (get_or_load fs cache loc d).cache k = Cache.find cache k) ∧
    ((get_or_load fs cache loc d).catalog =
      match Cache.find cache (loc, d.name) with
      | some c => c
      | none => loadCatalog fs d loc) ∧
    ((cache.map Prod.fst).Nodup →
      ((get_or_load fs cache loc d).cache.map Prod.fst).Nodup) ∧
    ((testDomain.gettext exFS [] "de_DE" "first" []).1 = "erste") ∧
    ((messagesDomain.gettext exFS (testDomain.gettext exFS [] "de_DE" "first" []).2
      "de_DE" "first" []).1 = "first") := by
  refine ⟨fun hk => find_get_or_load_other fs cache loc d hk, ?_,
    fun h => keys_nodup_get_or_load fs cache loc d h, rfl, rfl⟩
  cases hf : Cache.find cache (loc, d.name) with
  | some c => rw [get_or_load_of_find_some fs hf]
  | none => rw [get_or_load_of_find_none fs hf]

/-- Witness for C8: after the "test" domain's catalog is cached for de_DE,
an access for the "messages" domain leaves the ("de_DE", "test") entry
unchanged, and key uniqueness holds concretely. -/
theorem cache_keys_isolate_domains_witness :
    (("de_DE", "test") : CacheKey) ≠ ("de_DE", messagesDomain.name) ∧
    Cache.find
        (get_or_load exFS [(("de_DE", "test"), testDeCatalog)] "de_DE" messagesDomain).cache
        ("de_DE", "test") =
      Cache.find [(("de_DE", "test"), testDeCatalog)] ("de_DE", "test") ∧
    (([(("de_DE", "test"), testDeCatalog)] : Cache).map Prod.fst).Nodup ∧
    (((get_or_load exFS [(("de_DE", "test"), testDeCatalog)] "de_DE"
      messagesDomain).cache.map Prod.fst)).Nodup := by
  have h := cache_keys_isolate_domains exFS [(("de_DE", "test"), testDeCatalog)]
    "de_DE" messagesDomain ("de_DE", "test")
  refine ⟨by decide, h.1 (by decide), by simp, h.2.2.1 (by simp)⟩

/-- C9: translate_plural (ngettext and lazy_ngettext) with count n and no
explicit "num" substitution automatically binds n to the "%(num)s"
placeholder of the selected plural form: the output equals the selected
form percent-formatted with the substitutions extended by ("num", n), and
concretely the caller obtains "3 Äpfel", "1 Apfel" and "2 Äpfel" without
ever passing num (mirroring test_basics and test_lazy_ngettext). -/
theorem ngettext_binds_num (fs : CatalogFiles) (cache : Cache) (loc : Locale)
    (d : Domain) (s p : String) (n : Nat) (vars : Subst) :
    (vars.lookup "num" = none →
      (d.ngettext fs cache loc s p n vars).1 =
        pctSubst ((get_or_load fs cache loc d).catalog.ungettext s p n)
          (vars ++ [("num", toString n)])) ∧
    ((messagesDomain.ngettext exFS [] "de_DE" "%(num)s Apple" "%(num)s Apples" 3 []).1 =
      "3 Äpfel") ∧
    ((messagesDomain.ngettext exFS [] "de_DE" "%(num)s Apple" "%(num)s Apples" 1 []).1 =
      "1 Apfel") ∧
    ((lazy_ngettext "%(num)s Apple" "%(num)s Apples" 2 []).str (exEnv "de_DE") =
      "2 Äpfel") := by
  refine ⟨?_, rfl, rfl, rfl⟩
  intro h
  simp [Domain.ngettext, h]

/-- Witness for C9: the automatic binding clause instantiated on the de_DE
fixture at count 3 with an empty substitution list. -/
theorem ngettext_binds_num_witness :
    ([] : Subst).lookup "num" = none ∧
    (messagesDomain.ngettext exFS [] "de_DE" "%(num)s Apple" "%(num)s Apples" 3 []).1 =
      pctSubst ((get_or_load exFS [] "de_DE" messagesDomain).catalog.ungettext
        "%(num)s Apple" "%(num)s Apples" 3) ([] ++ [("num", toString 3)]) := by
  have h := ngettext_binds_num exFS [] "de_DE" messagesDomain
    "%(num)s Apple" "%(num)s Apples" 3 []
  exact ⟨rfl, h.1 rfl⟩

theorem dedup_foldl_mem (ls : List Locale) (acc : List Locale) (x : Locale) :
    x ∈ ls.foldl (fun acc l => if l ∈ acc then acc else acc ++ [l]) acc ↔
      x ∈ acc ∨ x ∈ ls := by
  induction ls generalizing acc with
  | nil => simp
  | cons l ls ih =>
    rw [List.foldl_cons, ih]
    by_cases hl : l ∈ acc
    · rw [if_pos hl]
      simp only [List.mem_cons]
      constructor
      · rintro (h | h)
        · exact Or.inl h
        · exact Or.inr (Or.inr h)
      · rintro (h | rfl | h)
        · exact Or.inl h
        · exact Or.inl hl
        · exact Or.inr h
    · rw [if_neg hl]
      simp only [List.mem_append, List.mem_singleton, List.mem_cons]
      tauto

theorem dedup_foldl_nodup (ls : List Locale) (acc : List Locale) (h : acc.Nodup) :
    (ls.foldl (fun acc l => if l ∈ acc then acc else acc ++ [l]) acc).Nodup := by
  induction ls generalizing acc with
  | nil => exact h
  | cons l ls ih =>
    rw [List.foldl_cons]
    by_cases hl : l ∈ acc
    · rw [if_pos hl]
      exact ih acc h
    · rw [if_neg hl]
      refine ih _ (List.nodup_append.mpr ⟨h, List.nodup_singleton l, ?_⟩)
      intro a ha hb
      exact hl ((List.mem_singleton.mp hb) ▸ ha)

/-- C10: list_translations returns the union of the locales discovered in
the translation directories and the configured default locale, with no
duplicates: membership is exactly "discovered or default", the default
appears exactly once when it already has a catalog directory, it is still
included when it does not, and on the test fixtures the results match
test_list_translations (default de_DE added to de, ja) and
test_list_translations_default_locale_exists (default de not repeated). -/
theorem list_translations_spec (discovered : List Locale) (dft : Locale) :
    (list_translations discovered dft).Nodup ∧
    (∀ l, l ∈ list_translations discovered dft ↔ l ∈ discovered ∨ l = dft) ∧
    (dft ∈ discovered → (list_translations discovered dft).count dft = 1) ∧
    (dft ∉ discovered → dft ∈ list_translations discovered dft) ∧
    (list_translations ["de", "ja"] "de_DE" = ["de", "ja", "de_DE"]) ∧
    (list_translations ["de", "ja"] "de" = ["de", "ja"]) := by
  have hmem : ∀ x, x ∈ discovered.foldl
      (fun acc l => if l ∈ acc then acc else acc ++ [l]) [] ↔ x ∈ discovered := by
    intro x
    rw [dedup_foldl_mem]
    simp
  have hnodup : (discovered.foldl
      (fun acc l => if l ∈ acc then acc else acc ++ [l]) []).Nodup :=
    dedup_foldl_nodup discovered [] List.nodup_nil
  have hL : ∀ x, x ∈ list_translations discovered dft ↔ x ∈ discovered ∨ x = dft := by
    intro x
    unfold list_translations
    by_cases hd : dft ∈ discovered.foldl (fun acc l => if l ∈ acc then acc else acc ++ [l]) []
    · rw [if_pos hd, hmem]
      constructor
      · exact Or.inl
      · rintro (h | rfl)
        · exact h
        · exact (hmem x).mp hd
    · rw [if_neg hd]
      simp only [List.mem_append, List.mem_singleton, hmem]
  have hLnodup : (list_translations discovered dft).Nodup := by
    unfold list_translations
    by_cases hd : dft ∈ discovered.foldl (fun acc l => if l ∈ acc then acc else acc ++ [l]) []
    · rw [if_pos hd]
      exact hnodup
    · rw [if_neg hd]
      refine List.nodup_append.mpr ⟨hnodup, List.nodup_singleton dft, ?_⟩
      intro a ha hb
      exact hd ((List.mem_singleton.mp hb) ▸ ha)
  refine ⟨hLnodup, hL, ?_, ?_, by decide, by decide⟩
  · intro h
    exact List.count_eq_one_of_mem hLnodup ((hL dft).mpr (Or.inl h))
  · intro _
    exact (hL dft).mpr (Or.inr rfl)

/-- Witness for C10 on the test fixtures: a default locale that already
has a catalog directory appears exactly once, and one that does not is
still included. -/
theorem list_translations_spec_witness :
    ("de" ∈ (["de", "ja"] : List Locale) ∧
      (list_translations ["de", "ja"] "de").count "de" = 1) ∧
    ("de_DE" ∉ (["de", "ja"] : List Locale) ∧
      "de_DE" ∈ list_translations ["de", "ja"] "de_DE") := by
  refine ⟨⟨by decide, ?_⟩, ⟨by decide, ?_⟩⟩
  · exact (list_translations_spec ["de", "ja"] "de").2.2.1 (by decide)
  · exact (list_translations_spec ["de", "ja"] "de_DE").2.2.2.1 (by decide)

end FlaskBabel
